import Mathlib

/-!
Verification development for the timekeep work-hours tracker.

The embedding translates the TypeScript core into Lean:
timestamps are integers (milliseconds since epoch, the value of
`Date.getTime()`); durations are integers; configuration values and
hour quantities are rationals (JS numbers used at fractional scale);
the local calendar day of a timestamp is its floor-division by the
number of milliseconds in a day (the effect of `setHours(0,0,0,0)`).
-/

namespace Timekeep

/-- The `type` field of a `ClockEntry`: `'in' | 'out'`. -/
inductive EntryType where
  | tIn
  | tOut
deriving DecidableEq, BEq

/-- `ClockEntry` from time-tracking.service.ts: `{id, timestamp, type}`. -/
structure ClockEntry where
  id : String
  timestamp : Int
  type : EntryType
deriving DecidableEq, BEq

/-- A completed `WorkSession` as pushed by `calculateSessions`:
`{clockIn, clockOut, duration}` with `duration = clockOut - clockIn`. -/
structure WorkSession where
  clockIn : Int
  clockOut : Int
  duration : Int
deriving DecidableEq, BEq

/-- Milliseconds in one local day. -/
def msPerDay : Int := 86400000

/-- Local calendar day of a timestamp (`setHours(0,0,0,0)` bucketing):
floor division so that negative epoch offsets land on the previous day. -/
def dayOf (t : Int) : Int := Int.fdiv t msPerDay

/-- One step of the stable insertion modelling JS `Array.prototype.sort`
with comparator `(a, b) => a.timestamp - b.timestamp`: an element taken
from earlier in the array is placed before any element with an equal key,
which is exactly the stable-sort order mandated for `Array.sort`. -/
def insertByTs (e : ClockEntry) : List ClockEntry → List ClockEntry
  | [] => [e]
  | x :: xs => if e.timestamp ≤ x.timestamp then e :: x :: xs else x :: insertByTs e xs

/-- Stable sort by ascending timestamp, the effect of `getSortedEntries`
and of the sort at the head of `calculateSessions`. -/
def sortByTs : List ClockEntry → List ClockEntry
  | [] => []
  | x :: xs => insertByTs x (sortByTs xs)

/-- The last element of a list (`arr[arr.length - 1]` on a non-empty array). -/
def lastE : List ClockEntry → Option ClockEntry
  | [] => none
  | [a] => some a
  | _ :: b :: t => lastE (b :: t)

/-- `TimeTrackingService.isClockedIn`: the latest-timestamped entry of the
whole entry list is an `'in'` entry. -/
def isClockedIn (entries : List ClockEntry) : Bool :=
  match lastE (sortByTs entries) with
  | some e => e.type == .tIn
  | none => false

/-- `TimeTrackingService.todayEntries`: entries whose local date equals the
local date of `now`. -/
def todayEntries (entries : List ClockEntry) (now : Int) : List ClockEntry :=
  entries.filter (fun e => dayOf e.timestamp == dayOf now)

/-- The scan loop inside `calculateSessions`: `currentSession` holds the
pending clock-in timestamp; an `'in'` entry overwrites it; an `'out'` entry
with a pending clock-in pushes a session and clears it; an `'out'` entry
with no pending clock-in does nothing. -/
def sessionScan : Option Int → List ClockEntry → List WorkSession
  | _, [] => []
  | pending, e :: rest =>
    match e.type with
    | .tIn => sessionScan (some e.timestamp) rest
    | .tOut =>
      match pending with
      | some s => ⟨s, e.timestamp, e.timestamp - s⟩ :: sessionScan none rest
      | none => sessionScan none rest

/-- `TimeTrackingService.calculateSessions`: sort by timestamp ascending,
then run the pending-in scan. -/
def calculateSessions (entries : List ClockEntry) : List WorkSession :=
  sessionScan none (sortByTs entries)

/-- `TimeTrackingService.todaySessions`. -/
def todaySessions (entries : List ClockEntry) (now : Int) : List WorkSession :=
  calculateSessions (todayEntries entries now)

/-- `TimeTrackingService.currentSessionDuration`: zero when not clocked in,
otherwise `now` minus the timestamp of the last entry of the full sorted
list. -/
def currentSessionDuration (entries : List ClockEntry) (now : Int) : Int :=
  if isClockedIn entries then
    match lastE (sortByTs entries) with
    | some e => now - e.timestamp
    | none => 0
  else 0

/-- The `reduce((sum, session) => sum + session.duration, 0)` accumulation. -/
def sumDurations (sessions : List WorkSession) : Int :=
  sessions.foldl (fun a s => a + s.duration) 0

/-- `TimeTrackingService.totalWorkTimeToday`: completed time of today plus
the open-session time when clocked in. -/
def totalWorkTimeToday (entries : List ClockEntry) (now : Int) : Int :=
  sumDurations (todaySessions entries now) +
    (if isClockedIn entries then currentSessionDuration entries now else 0)

/-- `WorkHoursConfig` from work-hours.config.ts. -/
structure WorkHoursConfig where
  targetHours : ℚ
  notificationOffsetHours : ℚ
deriving DecidableEq

/-- `hoursToMilliseconds` from work-hours.config.ts. -/
def hoursToMilliseconds (hours : ℚ) : ℚ := hours * 60 * 60 * 1000

/-- `millisecondsToHours` from work-hours.config.ts. -/
def millisecondsToHours (milliseconds : ℚ) : ℚ := milliseconds / (1000 * 60 * 60)

/-- `TimeTrackingService.notificationThreshold` (milliseconds). -/
def notificationThreshold (cfg : WorkHoursConfig) : ℚ :=
  hoursToMilliseconds (cfg.targetHours - cfg.notificationOffsetHours)

/-- `TimeTrackingService.workHoursTarget` (milliseconds). -/
def workHoursTarget (cfg : WorkHoursConfig) : ℚ :=
  hoursToMilliseconds cfg.targetHours

/-- `TimeTrackingService.shouldNotify`: clocked in and today's total at or
above the notification threshold. -/
def shouldNotify (cfg : WorkHoursConfig) (entries : List ClockEntry) (now : Int) : Bool :=
  isClockedIn entries &&
    decide ((totalWorkTimeToday entries now : ℚ) ≥ notificationThreshold cfg)

/-- `TimeTrackingService.clockIn`: appends an `'in'` entry stamped `now`
(the generated id is an input of the model). -/
def clockIn (entries : List ClockEntry) (id : String) (now : Int) : List ClockEntry :=
  entries ++ [⟨id, now, .tIn⟩]

/-- `TimeTrackingService.clockOut`: warns and returns unchanged when not
clocked in, otherwise appends an `'out'` entry stamped `now`. -/
def clockOut (entries : List ClockEntry) (id : String) (now : Int) : List ClockEntry :=
  if isClockedIn entries then entries ++ [⟨id, now, .tOut⟩] else entries

/-- `TimeTrackingService.toggleClock`. -/
def toggleClock (entries : List ClockEntry) (id : String) (now : Int) : List ClockEntry :=
  if isClockedIn entries then clockOut entries id now else clockIn entries id now

example : isClockedIn [⟨"a", 0, .tIn⟩] = true := by decide

example : totalWorkTimeToday [⟨"a", 0, .tIn⟩, ⟨"b", 600000, .tOut⟩] 900000 = 600000 := by decide

example : ((1 : ℚ) / 2) ≤ 1 := by with_unfolding_all decide

lemma insertByTs_perm (e : ClockEntry) (l : List ClockEntry) :
    (insertByTs e l).Perm (e :: l) := by
  induction l with
  | nil => simp [insertByTs]
  | cons x xs ih =>
    by_cases h : e.timestamp ≤ x.timestamp
    · simp [insertByTs, h]
    · simp only [insertByTs, if_neg h]
      exact (ih.cons x).trans (List.Perm.swap e x xs)

lemma sortByTs_perm (l : List ClockEntry) : (sortByTs l).Perm l := by
  induction l with
  | nil => exact List.Perm.refl []
  | cons x xs ih => exact (insertByTs_perm x (sortByTs xs)).trans (ih.cons x)

lemma mem_sortByTs {a : ClockEntry} {l : List ClockEntry} : a ∈ sortByTs l ↔ a ∈ l :=
  (sortByTs_perm l).mem_iff

lemma insertByTs_pairwise {e : ClockEntry} {l : List ClockEntry}
    (h : l.Pairwise (fun a b => a.timestamp ≤ b.timestamp)) :
    (insertByTs e l).Pairwise (fun a b => a.timestamp ≤ b.timestamp) := by
  induction l with
  | nil => simp [insertByTs]
  | cons x xs ih =>
    rcases List.pairwise_cons.1 h with ⟨hx, hxs⟩
    by_cases hle : e.timestamp ≤ x.timestamp
    · simp only [insertByTs, if_pos hle]
      refine List.pairwise_cons.2 ⟨?_, h⟩
      intro y hy
      rcases List.mem_cons.1 hy with rfl | hy2
      · exact hle
      · exact le_trans hle (hx y hy2)
    · simp only [insertByTs, if_neg hle]
      refine List.pairwise_cons.2 ⟨?_, ih hxs⟩
      intro y hy
      rcases List.mem_cons.1 ((insertByTs_perm e xs).mem_iff.1 hy) with rfl | hy2
      · exact le_of_not_le hle
      · exact hx y hy2

lemma sortByTs_pairwise (l : List ClockEntry) :
    (sortByTs l).Pairwise (fun a b => a.timestamp ≤ b.timestamp) := by
  induction l with
  | nil => simp [sortByTs]
  | cons x xs ih => exact insertByTs_pairwise ih

lemma lastE_mem {l : List ClockEntry} : ∀ {a : ClockEntry}, lastE l = some a → a ∈ l := by
  induction l with
  | nil => intro a h; simp [lastE] at h
  | cons x xs ih =>
    intro a h
    cases xs with
    | nil =>
      simp [lastE] at h
      subst h
      exact List.mem_singleton_self x
    | cons y ys =>
      exact List.mem_cons_of_mem x (ih h)

lemma lastE_cons_of_ne_nil {x : ClockEntry} {w : List ClockEntry} (h : w ≠ []) :
    lastE (x :: w) = lastE w := by
  cases w with
  | nil => exact absurd rfl h
  | cons y ys => rfl

lemma insertByTs_ne_nil (e : ClockEntry) (l : List ClockEntry) : insertByTs e l ≠ [] := by
  cases l with
  | nil => simp [insertByTs]
  | cons x xs => by_cases h : e.timestamp ≤ x.timestamp <;> simp [insertByTs, h]

lemma insertByTs_cons (e x : ClockEntry) (xs : List ClockEntry) :
    insertByTs e (x :: xs) =
      if e.timestamp ≤ x.timestamp then e :: x :: xs else x :: insertByTs e xs := rfl

lemma lastE_insertByTs {l : List ClockEntry} {a e : ClockEntry}
    (hl : lastE l = some a) (he : e.timestamp ≤ a.timestamp) :
    lastE (insertByTs e l) = some a := by
  induction l with
  | nil => simp [lastE] at hl
  | cons x xs ih =>
    cases xs with
    | nil =>
      simp [lastE] at hl
      subst hl
      rw [insertByTs_cons, if_pos he]
      rfl
    | cons y ys =>
      by_cases h : e.timestamp ≤ x.timestamp
      · rw [insertByTs_cons, if_pos h]
        exact hl
      · rw [insertByTs_cons, if_neg h,
          lastE_cons_of_ne_nil (insertByTs_ne_nil e (y :: ys))]
        exact ih hl

lemma lastE_sortByTs_append {l : List ClockEntry} {a : ClockEntry}
    (h : ∀ e ∈ l, e.timestamp ≤ a.timestamp) :
    lastE (sortByTs (l ++ [a])) = some a := by
  induction l with
  | nil => rfl
  | cons x xs ih =>
    have hx : x.timestamp ≤ a.timestamp := h x (List.mem_cons_self x xs)
    have ih2 := ih (fun e he => h e (List.mem_cons_of_mem x he))
    exact lastE_insertByTs ih2 hx

lemma isClockedIn_append_max {entries : List ClockEntry} {x : ClockEntry}
    (h : ∀ e ∈ entries, e.timestamp ≤ x.timestamp) :
    isClockedIn (entries ++ [x]) = (x.type == .tIn) := by
  unfold isClockedIn
  rw [lastE_sortByTs_append h]

/-- Claim C10: when every existing timestamp is at or before `now`, a single
`toggleClock` call appends exactly one entry, of kind `'out'` when clocked
in and `'in'` otherwise, and afterwards `isClockedIn` is the negation of
its previous value. -/
theorem claim10_toggle_flips (entries : List ClockEntry) (id : String) (now : Int)
    (h : ∀ e ∈ entries, e.timestamp ≤ now) :
    toggleClock entries id now =
      entries ++ [⟨id, now, if isClockedIn entries then .tOut else .tIn⟩] ∧
    isClockedIn (toggleClock entries id now) = !(isClockedIn entries) := by
  cases hE : isClockedIn entries with
  | true =>
    have hlast := @isClockedIn_append_max entries ⟨id, now, .tOut⟩ h
    constructor
    · simp [toggleClock, clockOut, hE]
    · simp [toggleClock, clockOut, hE, hlast]
      decide
  | false =>
    have hlast := @isClockedIn_append_max entries ⟨id, now, .tIn⟩ h
    constructor
    · simp [toggleClock, clockIn, hE]
    · simp [toggleClock, clockIn, hE, hlast]
      decide

theorem claim10_witness :
    (∀ e ∈ ([] : List ClockEntry), e.timestamp ≤ 0) ∧
    (toggleClock [] "x" 0 =
      [] ++ [⟨"x", 0, if isClockedIn [] then .tOut else .tIn⟩] ∧
    isClockedIn (toggleClock [] "x" 0) = !(isClockedIn [])) :=
  ⟨by simp, claim10_toggle_flips [] "x" 0 (by simp)⟩

/-- Claim C4: calling `clockOut` while `isClockedIn` is false appends no
event and leaves the entry list unchanged (the code only logs a warning). -/
theorem claim4_clockout_noop (entries : List ClockEntry) (id : String) (now : Int)
    (h : isClockedIn entries = false) :
    clockOut entries id now = entries := by
  simp [clockOut, h]

theorem claim4_witness :
    isClockedIn [⟨"a", 300000, .tOut⟩] = false ∧
    clockOut [⟨"a", 300000, .tOut⟩] "b" 600000 = [⟨"a", 300000, .tOut⟩] :=
  ⟨by decide, claim4_clockout_noop _ "b" 600000 (by decide)⟩

/-- Modelled from the spec wording of §4.2: scan the sorted events keeping
an optional pending-in; an `in` overwrites the pending start (latest `in`
wins); an `out` with a pending-in emits exactly one session from the
pending timestamp to the `out` timestamp and clears the pending-in; an
`out` with no pending-in is discarded. Returns the sessions and the final
`openSince`. Used only to compare the spec description with
`calculateSessions`. -/
def specScan : List ClockEntry → Option Int → List WorkSession × Option Int
  | [], pending => ([], pending)
  | e :: rest, pending =>
    match e.type, pending with
    | .tIn, _ => specScan rest (some e.timestamp)
    | .tOut, some s =>
      let r := specScan rest none
      (⟨s, e.timestamp, e.timestamp - s⟩ :: r.1, r.2)
    | .tOut, none => specScan rest none

/-- Modelled from the spec: `reconstruct` sorts by timestamp ascending and
runs the pending-in scan. -/
def reconstructSpec (events : List ClockEntry) : List WorkSession × Option Int :=
  specScan (sortByTs events) none

lemma specScan_fst : ∀ (l : List ClockEntry) (p : Option Int),
    (specScan l p).1 = sessionScan p l := by
  intro l
  induction l with
  | nil => intro p; rfl
  | cons e rest ih =>
    intro p
    cases he : e.type with
    | tIn => simp [specScan, sessionScan, he, ih]
    | tOut =>
      cases p with
      | some s => simp [specScan, sessionScan, he, ih]
      | none => simp [specScan, sessionScan, he, ih]

/-- Claim C3: `calculateSessions` sorts by timestamp ascending (a sorted
permutation of the input) and then scans with the spec's pending-in
policy: latest `in` wins, an `out` with a pending-in emits exactly one
session and clears it, a stray `out` is discarded. -/
theorem claim3_reconstruction (entries : List ClockEntry) :
    (sortByTs entries).Pairwise (fun a b => a.timestamp ≤ b.timestamp) ∧
    (sortByTs entries).Perm entries ∧
    calculateSessions entries = (reconstructSpec entries).1 :=
  ⟨sortByTs_pairwise entries, sortByTs_perm entries,
    (specScan_fst (sortByTs entries) none).symm⟩

/-- Entries used by the claim C9 theorem: a single `'in'` entry dated the
day before the evaluation instant. -/
def entriesC9 : List ClockEntry := [⟨"a", 0, .tIn⟩]

/-- Claim C9: `isClockedIn` and `currentSessionDuration` read the
latest-timestamped entry of the whole list: with a single `'in'` entry
dated before today, the service is clocked in with positive open duration
while `todayEntries` and `todaySessions` are empty. -/
theorem claim9_latest_entry_global :
    isClockedIn entriesC9 = true ∧
    0 < currentSessionDuration entriesC9 86400005 ∧
    todayEntries entriesC9 86400005 = [] ∧
    todaySessions entriesC9 86400005 = [] := by
  decide

/-- Claim C8: a configuration with `notificationOffsetHours ≥ targetHours`
makes the threshold firing condition hold already at
`totalWorkedToday = 0` whenever the user is clocked in; nothing validates
the configuration. -/
theorem claim8_offset_ge_target (cfg : WorkHoursConfig) (entries : List ClockEntry) (now : Int)
    (hcfg : cfg.targetHours ≤ cfg.notificationOffsetHours)
    (hin : isClockedIn entries = true)
    (hzero : totalWorkTimeToday entries now = 0) :
    shouldNotify cfg entries now = true := by
  unfold shouldNotify
  rw [hin, hzero]
  simp only [Bool.true_and]
  apply decide_eq_true
  unfold notificationThreshold hoursToMilliseconds
  push_cast
  nlinarith [hcfg]

theorem claim8_witness :
    (⟨1, 2⟩ : WorkHoursConfig).targetHours ≤ (⟨1, 2⟩ : WorkHoursConfig).notificationOffsetHours ∧
    isClockedIn [⟨"a", 0, .tIn⟩] = true ∧
    totalWorkTimeToday [⟨"a", 0, .tIn⟩] 0 = 0 ∧
    shouldNotify ⟨1, 2⟩ [⟨"a", 0, .tIn⟩] 0 = true :=
  ⟨by decide, by decide, by decide,
    claim8_offset_ge_target ⟨1, 2⟩ [⟨"a", 0, .tIn⟩] 0 (by decide) (by decide) (by decide)⟩

lemma sessionScan_duration_nonneg :
    ∀ {l : List ClockEntry} {p : Option Int},
      l.Pairwise (fun a b => a.timestamp ≤ b.timestamp) →
      (∀ t, p = some t → ∀ e ∈ l, t ≤ e.timestamp) →
      ∀ s ∈ sessionScan p l, 0 ≤ s.duration := by
  intro l
  induction l with
  | nil =>
    intro p _ _ s hs
    simp [sessionScan] at hs
  | cons e rest ih =>
    intro p hp hb s hs
    rcases List.pairwise_cons.1 hp with ⟨he, hrest⟩
    cases ht : e.type with
    | tIn =>
      simp only [sessionScan, ht] at hs
      refine ih hrest ?_ s hs
      intro t htt x hx
      cases htt
      exact he x hx
    | tOut =>
      cases p with
      | some t0 =>
        simp only [sessionScan, ht] at hs
        rcases List.mem_cons.1 hs with rfl | hs2
        · have h0 : t0 ≤ e.timestamp := hb t0 rfl e (List.mem_cons_self e rest)
          simpa using sub_nonneg.2 h0
        · refine ih hrest ?_ s hs2
          intro t htt
          exact absurd htt (by simp)
      | none =>
        simp only [sessionScan, ht] at hs
        refine ih hrest ?_ s hs
        intro t htt
        exact absurd htt (by simp)

lemma calculateSessions_duration_nonneg (entries : List ClockEntry) :
    ∀ s ∈ calculateSessions entries, 0 ≤ s.duration := by
  refine sessionScan_duration_nonneg (sortByTs_pairwise entries) ?_
  intro t htt
  exact absurd htt (by simp)

lemma foldl_add_duration_nonneg :
    ∀ (l : List WorkSession) (acc : Int), 0 ≤ acc →
      (∀ s ∈ l, 0 ≤ s.duration) → 0 ≤ l.foldl (fun a s => a + s.duration) acc := by
  intro l
  induction l with
  | nil => intro acc ha _; simpa using ha
  | cons x xs ih =>
    intro acc ha h
    refine ih (acc + x.duration) ?_ ?_
    · have := h x (List.mem_cons_self x xs)
      omega
    · intro s hs
      exact h s (List.mem_cons_of_mem x hs)

lemma sumDurations_nonneg {sessions : List WorkSession}
    (h : ∀ s ∈ sessions, 0 ≤ s.duration) : 0 ≤ sumDurations sessions :=
  foldl_add_duration_nonneg sessions 0 le_rfl h

lemma currentSessionDuration_nonneg {entries : List ClockEntry} {now : Int}
    (h : ∀ e ∈ entries, e.timestamp ≤ now) :
    0 ≤ currentSessionDuration entries now := by
  cases hc : isClockedIn entries with
  | false => simp [currentSessionDuration, hc]
  | true =>
    simp only [currentSessionDuration, hc, if_true]
    cases hL : lastE (sortByTs entries) with
    | none => simp
    | some e =>
      simp only []
      have hm : e ∈ entries := mem_sortByTs.1 (lastE_mem hL)
      have := h e hm
      omega

lemma totalWorkTimeToday_nonneg {entries : List ClockEntry} {now : Int}
    (h : ∀ e ∈ entries, e.timestamp ≤ now) :
    0 ≤ totalWorkTimeToday entries now := by
  unfold totalWorkTimeToday
  have h1 : 0 ≤ sumDurations (todaySessions entries now) :=
    sumDurations_nonneg (calculateSessions_duration_nonneg (todayEntries entries now))
  have h2 : 0 ≤ currentSessionDuration entries now := currentSessionDuration_nonneg h
  cases hc : isClockedIn entries <;> simp [hc] <;> omega

lemma todayEntries_day_eq {entries : List ClockEntry} {n1 n2 : Int}
    (h : dayOf n1 = dayOf n2) : todayEntries entries n1 = todayEntries entries n2 := by
  unfold todayEntries
  rw [h]

lemma totalWorkTimeToday_mono {entries : List ClockEntry} {n1 n2 : Int}
    (h12 : n1 ≤ n2) (hday : dayOf n1 = dayOf n2) (hc : isClockedIn entries = true) :
    totalWorkTimeToday entries n1 ≤ totalWorkTimeToday entries n2 := by
  unfold totalWorkTimeToday
  have hts : todaySessions entries n1 = todaySessions entries n2 := by
    unfold todaySessions
    rw [todayEntries_day_eq hday]
  rw [hts, hc]
  simp only [if_true]
  have hcur : currentSessionDuration entries n1 ≤ currentSessionDuration entries n2 := by
    simp only [currentSessionDuration, hc, if_true]
    cases hL : lastE (sortByTs entries) with
    | none => exact le_rfl
    | some e =>
      show n1 - e.timestamp ≤ n2 - e.timestamp
      omega
  omega

/-- Claim C7 (amended): with all timestamps at or before `now`,
`totalWorkTimeToday` is non-negative; and while clocked in it is monotone
non-decreasing as `now` advances within the same local day. -/
theorem claim7_total_nonneg_mono (entries : List ClockEntry) (n1 n2 : Int)
    (hts : ∀ e ∈ entries, e.timestamp ≤ n1) (h12 : n1 ≤ n2)
    (hday : dayOf n1 = dayOf n2) :
    0 ≤ totalWorkTimeToday entries n1 ∧
    (isClockedIn entries = true →
      totalWorkTimeToday entries n1 ≤ totalWorkTimeToday entries n2) :=
  ⟨totalWorkTimeToday_nonneg hts, fun hc => totalWorkTimeToday_mono h12 hday hc⟩

/-- Entries for the claim C7 counterexample: a completed one-hour session
and an open session, all on day zero. -/
def entriesC7 : List ClockEntry :=
  [⟨"a", 0, .tIn⟩, ⟨"b", 3600000, .tOut⟩, ⟨"c", 7200000, .tIn⟩]

/-- Claim C7 as stated is false at a day boundary: all timestamps are at or
before the first instant, the service is clocked in, the clock advances by
one millisecond across local midnight, and `totalWorkTimeToday` decreases
(the completed session of the previous day drops out of the today filter). -/
theorem claim7_counterexample :
    entriesC7.all (fun e => decide (e.timestamp ≤ 86399999)) = true ∧
    (86399999 : Int) ≤ 86400000 ∧
    isClockedIn entriesC7 = true ∧
    totalWorkTimeToday entriesC7 86400000 < totalWorkTimeToday entriesC7 86399999 := by
  decide

theorem claim7_witness :
    (∀ e ∈ entriesC7, e.timestamp ≤ 7200000) ∧
    (0 ≤ totalWorkTimeToday entriesC7 7200000 ∧
      (isClockedIn entriesC7 = true →
        totalWorkTimeToday entriesC7 7200000 ≤ totalWorkTimeToday entriesC7 7200005)) := by
  have hts : ∀ e ∈ entriesC7, e.timestamp ≤ 7200000 := by
    intro e he
    fin_cases he <;> decide
  exact ⟨hts, claim7_total_nonneg_mono entriesC7 7200000 7200005 hts (by decide) (by decide)⟩

/-- A persisted timestamp string as `new Date(string)` sees it: it either
parses to a time or is unparseable (an Invalid Date, which in JS is a
value, not an exception). -/
inductive RawTimestamp where
  | valid (t : Int)
  | unparseable
deriving DecidableEq, BEq

/-- One element of the persisted `timekeep_entries` array. -/
structure RawEntry where
  id : String
  timestamp : RawTimestamp
  type : EntryType
deriving DecidableEq, BEq

/-- The persisted value under the events key as `JSON.parse` sees it:
either it fails to deserialize as an array (malformed JSON, or a value
without `.map`/`.filter`, both of which throw and are caught), or it is a
list of entries. -/
inductive StoredPayload where
  | malformed
  | entriesList (l : List RawEntry)
deriving DecidableEq, BEq

/-- `new Date(s).getTime()`: a time for a parseable string, `NaN`
(modelled as `none`) otherwise. -/
def parseDate : RawTimestamp → Option Int
  | .valid t => some t
  | .unparseable => none

/-- An in-memory entry produced by `loadFromStorage`; `timestamp = none`
models an Invalid Date carried in the entry object. -/
structure LoadedEntry where
  id : String
  timestamp : Option Int
  type : EntryType
deriving DecidableEq, BEq

/-- The `parsed.map(e => ({...e, timestamp: new Date(e.timestamp)}))` step. -/
def loadRaw (r : RawEntry) : LoadedEntry :=
  ⟨r.id, parseDate r.timestamp, r.type⟩

/-- `TimeTrackingService.loadFromStorage`: a missing value or a payload
that throws during deserialization leaves the current entries unchanged
(the catch path); a deserialized list replaces the entries wholesale,
converting each timestamp with `new Date`, which never throws. -/
def loadFromStorage (stored : Option StoredPayload) (current : List LoadedEntry) :
    List LoadedEntry :=
  match stored with
  | none => current
  | some .malformed => current
  | some (.entriesList l) => l.map loadRaw

/-- The claim C5 payload: well-formed JSON list with one event whose
timestamp does not parse. -/
def badPayload : StoredPayload :=
  .entriesList [⟨"e1", .unparseable, .tOut⟩]

/-- Claim C5 as stated is false: a payload containing an event with an
unparseable timestamp is not treated as a failed load; starting from the
empty log, `loadFromStorage` yields a non-empty log holding the event with
an invalid timestamp. -/
theorem claim5_counterexample :
    ([⟨"e1", RawTimestamp.unparseable, EntryType.tOut⟩] : List RawEntry).any
      (fun r => (parseDate r.timestamp).isNone) = true ∧
    loadFromStorage (some badPayload) [] ≠ [] ∧
    loadFromStorage (some badPayload) [] = [⟨"e1", none, .tOut⟩] := by
  decide

/-- Claim C5 (amended): the whole-load fallback applies exactly when the
payload fails to deserialize (or is absent): then the current entries are
kept (empty log on startup) and nothing crashes; a payload that
deserializes to a list is always loaded in full, events with unparseable
timestamps included, their timestamps becoming invalid dates. -/
theorem claim5_load_fallback :
    (∀ current, loadFromStorage none current = current) ∧
    (∀ current, loadFromStorage (some .malformed) current = current) ∧
    (∀ l current, loadFromStorage (some (.entriesList l)) current = l.map loadRaw) :=
  ⟨fun _ => rfl, fun _ => rfl, fun _ _ => rfl⟩

/-- The local day of a persisted timestamp under the cleanup filter
(`new Date(e.timestamp)` then `setHours(0,0,0,0)`); an unparseable
timestamp gives `NaN`, which compares unequal to every midnight. -/
def rawDay (r : RawTimestamp) : Option Int := (parseDate r).map dayOf

/-- Persistent store state: the events key and the last-access-day marker
(a date string, modelled by the day number it denotes). -/
structure StoreState where
  eventsKey : Option StoredPayload
  lastAccessKey : Option Int
deriving DecidableEq, BEq

/-- `TimeTrackingService.cleanupOldEntries`: no stored value or a payload
that throws is left untouched (catch path); otherwise only entries whose
local date equals today survive. -/
def cleanupOldEntries (s : StoreState) (today : Int) : StoreState :=
  match s.eventsKey with
  | none => s
  | some .malformed => s
  | some (.entriesList l) =>
    { s with eventsKey := some (.entriesList (l.filter (fun e => rawDay e.timestamp == some today))) }

/-- The rollover phase of `TimeTrackingService.initializeData`: when the
stored last-access marker differs from today, clean up old entries and set
the marker to today; otherwise do nothing. -/
def rollover (s : StoreState) (today : Int) : StoreState :=
  if s.lastAccessKey = some today then s
  else { cleanupOldEntries s today with lastAccessKey := some today }

/-- Claim C6: rollover is idempotent — running it twice with the same
`today` leaves exactly the same persisted events and last-access marker as
running it once. -/
theorem claim6_rollover_idempotent (s : StoreState) (today : Int) :
    rollover (rollover s today) today = rollover s today := by
  by_cases h : s.lastAccessKey = some today
  · simp [rollover, h]
  · simp [rollover, h]

/-- The process-local sent-flags of `NotificationService`. -/
structure NotifState where
  notificationShown : Bool
  targetReachedNotificationShown : Bool
deriving DecidableEq, BEq

/-- The two alert kinds of the threshold engine: the approaching-target
alert (tag `work-hours-alert`) and the target-reached alert
(tag `target-reached`). -/
inductive Alert where
  | thresholdAlert
  | targetAlert
deriving DecidableEq, BEq

/-- Environment of one scheduler evaluation: the entry log and the clock
at that instant, which delivery path is available (`swPath` is the value
of the `swPush.isEnabled && serviceWorker controller` test during this
evaluation), and the behaviour of the external delivery capability
(permission state, and whether each delivery call would throw). -/
structure EvalEnv where
  entries : List ClockEntry
  now : Int
  swPath : Bool
  permissionGranted : Bool
  deliverOk : Bool
  deliverTargetOk : Bool
deriving DecidableEq, BEq

/-- Result of a `showWorkHoursNotification` call seen at two instants.
An async function body runs synchronously up to its first `await`:
`syncState` is the flag state the caller reads when control returns to it
within the same tick, and `finalState` is the flag state once the async
continuation has completed — assumed to happen before the next scheduler
evaluation, well within the five-second poll interval. `attempts` records
delivery attempts as (alert, delivered) pairs. -/
structure ShowResult where
  syncState : NotifState
  finalState : NotifState
  attempts : List (Alert × Bool)
deriving DecidableEq, BEq

/-- `NotificationService.showWorkHoursNotification`: returns early with no
delivery attempt when permission is missing. On the service-worker branch
two `await`s precede `notificationShown = true`, so the assignment runs in
an async continuation and is not visible to the remainder of the same
interval callback (`syncState` keeps the flag unset even on success). On
the fallback branch no `await` precedes the assignment, so on success the
flag is set synchronously. A throwing delivery skips the assignment on
both branches, because it sits after the delivery call inside the `try`. -/
def showWorkHoursNotification (swPath permission deliverOk : Bool) (s : NotifState) :
    ShowResult :=
  if permission then
    if swPath then
      if deliverOk then ⟨s, { s with notificationShown := true }, [(.thresholdAlert, true)]⟩
      else ⟨s, s, [(.thresholdAlert, false)]⟩
    else
      if deliverOk then
        ⟨{ s with notificationShown := true }, { s with notificationShown := true },
          [(.thresholdAlert, true)]⟩
      else ⟨s, s, [(.thresholdAlert, false)]⟩
  else ⟨s, s, []⟩

/-- `NotificationService.showTargetReachedNotification`: returns early with
no attempt when permission is missing; otherwise attempts delivery. It
sets no flag itself — the interval callback sets
`targetReachedNotificationShown` unconditionally after calling it. -/
def showTargetReachedNotification (permission deliverOk : Bool) : List (Alert × Bool) :=
  if permission then [(.targetAlert, deliverOk)] else []

/-- `NotificationService.calculateCurrentSessionDuration`: computed from
the today-filtered entries, zero when the last of them is not an `'in'`. -/
def calculateCurrentSessionDuration (entries : List ClockEntry) (now : Int) : Int :=
  match lastE (sortByTs (todayEntries entries now)) with
  | none => 0
  | some e => if e.type == .tIn then now - e.timestamp else 0

/-- The hours-worked value recomputed inside the `startPeriodicCheck`
interval callback: completed sessions of today plus the callback's own
open-session duration, converted to hours. -/
def pollHoursWorked (env : EvalEnv) : ℚ :=
  millisecondsToHours ((sumDurations (todaySessions env.entries env.now) +
    (if isClockedIn env.entries then calculateCurrentSessionDuration env.entries env.now else 0) : Int))

/-- First half of the interval callback: call
`showWorkHoursNotification` when clocked in, at or past
`targetHours - notificationOffsetHours`, and not already sent. -/
def pollThresholdPhase (cfg : WorkHoursConfig) (env : EvalEnv) (s : NotifState) :
    ShowResult :=
  if isClockedIn env.entries &&
      decide (pollHoursWorked env ≥ cfg.targetHours - cfg.notificationOffsetHours) &&
      !s.notificationShown then
    showWorkHoursNotification env.swPath env.permissionGranted env.deliverOk s
  else ⟨s, s, []⟩

/-- Second half of the interval callback: send the target-reached
notification when clocked in, at or past `targetHours`, the threshold
notification already shown and the target one not yet. The callback reads
the flags synchronously (`syncS`), so a threshold flag assigned in a
pending delivery continuation is not yet visible here; the result state
combines the continuation outcome (`finalS`) with the callback's own
unconditional `targetReachedNotificationShown = true` assignment. -/
def pollTargetPhase (cfg : WorkHoursConfig) (env : EvalEnv) (syncS finalS : NotifState) :
    NotifState × List (Alert × Bool) :=
  if isClockedIn env.entries && decide (pollHoursWorked env ≥ cfg.targetHours) &&
      syncS.notificationShown && !syncS.targetReachedNotificationShown then
    ({ finalS with targetReachedNotificationShown := true },
      showTargetReachedNotification env.permissionGranted env.deliverTargetOk)
  else (finalS, [])

/-- The body of the `setInterval` callback in
`NotificationService.startPeriodicCheck`: threshold check first, then the
target check against the synchronously visible flags; the state carried to
the next evaluation includes the completed delivery continuation. -/
def pollStep (cfg : WorkHoursConfig) (env : EvalEnv) (s : NotifState) :
    NotifState × List (Alert × Bool) :=
  ((pollTargetPhase cfg env (pollThresholdPhase cfg env s).syncState
      (pollThresholdPhase cfg env s).finalState).1,
    (pollThresholdPhase cfg env s).attempts ++
      (pollTargetPhase cfg env (pollThresholdPhase cfg env s).syncState
        (pollThresholdPhase cfg env s).finalState).2)

/-- The reactive `effect` in the `NotificationService` constructor: sends
the threshold notification when `shouldNotify`, clocked in and not already
sent; resets both flags when not clocked in (in which case the send branch
did not run, so no continuation is pending). -/
def reactiveStep (cfg : WorkHoursConfig) (env : EvalEnv) (s : NotifState) :
    NotifState × List (Alert × Bool) :=
  let r :=
    if shouldNotify cfg env.entries env.now && isClockedIn env.entries &&
        !s.notificationShown then
      showWorkHoursNotification env.swPath env.permissionGranted env.deliverOk s
    else ⟨s, s, []⟩
  if isClockedIn env.entries then (r.finalState, r.attempts)
  else (⟨false, false⟩, r.attempts)

/-- Which of the two independent triggers performs an evaluation. -/
inductive StepKind where
  | poll
  | reactive
deriving DecidableEq, BEq

/-- One scheduler evaluation, reactive or polled. -/
def schedStep (cfg : WorkHoursConfig) : StepKind → EvalEnv → NotifState → NotifState × List (Alert × Bool)
  | .poll, env, s => pollStep cfg env s
  | .reactive, env, s => reactiveStep cfg env s

/-- Run a sequence of scheduler evaluations, concatenating the recorded
delivery attempts. -/
def runSched (cfg : WorkHoursConfig) : NotifState → List (StepKind × EvalEnv) → NotifState × List (Alert × Bool)
  | s, [] => (s, [])
  | s, p :: rest =>
    ((runSched cfg (schedStep cfg p.1 p.2 s).1 rest).1,
      (schedStep cfg p.1 p.2 s).2 ++ (runSched cfg (schedStep cfg p.1 p.2 s).1 rest).2)

/-- The alerts actually delivered among the recorded attempts. -/
def delivered (out : List (Alert × Bool)) : List Alert :=
  (out.filter (fun p => p.2)).map (fun p => p.1)

lemma delivered_append (a b : List (Alert × Bool)) :
    delivered (a ++ b) = delivered a ++ delivered b := by
  simp [delivered]

/-- Invariant of a clocked-in stretch relating the sent-flags to the
alerts delivered so far. -/
def stretchInv (s : NotifState) (d : List Alert) : Prop :=
  (s = ⟨false, false⟩ ∧ d = []) ∨
  (s = ⟨true, false⟩ ∧ d = [.thresholdAlert]) ∨
  (s = ⟨true, true⟩ ∧ (d = [.thresholdAlert] ∨ d = [.thresholdAlert, .targetAlert]))

lemma stretchInv_notShown {s : NotifState} {d : List Alert}
    (h : stretchInv s d) (hns : s.notificationShown = false) :
    s = ⟨false, false⟩ ∧ d = [] := by
  rcases h with h | h | h
  · exact h
  · rw [h.1] at hns; simp at hns
  · rw [h.1] at hns; simp at hns

lemma showWork_inv {sw perm ok : Bool} {s : NotifState} {d : List Alert}
    (h : stretchInv s d) (hns : s.notificationShown = false) :
    stretchInv (showWorkHoursNotification sw perm ok s).finalState
      (d ++ delivered (showWorkHoursNotification sw perm ok s).attempts) := by
  rcases stretchInv_notShown h hns with ⟨rfl, rfl⟩
  cases perm with
  | false => simp [showWorkHoursNotification, delivered, stretchInv]
  | true =>
    cases sw with
    | true =>
      cases ok with
      | false => simp [showWorkHoursNotification, delivered, stretchInv]
      | true => simp [showWorkHoursNotification, delivered, stretchInv]
    | false =>
      cases ok with
      | false => simp [showWorkHoursNotification, delivered, stretchInv]
      | true => simp [showWorkHoursNotification, delivered, stretchInv]

lemma pollTargetPhase_inv {cfg : WorkHoursConfig} {env : EvalEnv} {s : NotifState}
    {d : List Alert} (h : stretchInv s d) :
    stretchInv (pollTargetPhase cfg env s s).1
      (d ++ delivered (pollTargetPhase cfg env s s).2) := by
  unfold pollTargetPhase
  split
  · rename_i hcond
    simp only [Bool.and_eq_true, Bool.not_eq_true'] at hcond
    have hshown : s.notificationShown = true := hcond.1.2
    have htarget : s.targetReachedNotificationShown = false := hcond.2
    have hs : s = ⟨true, false⟩ ∧ d = [.thresholdAlert] := by
      rcases h with h | h | h
      · rw [h.1] at hshown; simp at hshown
      · exact ⟨h.1, h.2⟩
      · rw [h.1] at htarget; simp at htarget
    rcases hs with ⟨rfl, rfl⟩
    cases henvp : env.permissionGranted with
    | false =>
      simp [showTargetReachedNotification, henvp, delivered, stretchInv]
    | true =>
      cases hok : env.deliverTargetOk with
      | false => simp [showTargetReachedNotification, henvp, hok, delivered, stretchInv]
      | true => simp [showTargetReachedNotification, henvp, hok, delivered, stretchInv]
  · simpa [delivered] using h

lemma pollStep_inv {cfg : WorkHoursConfig} {env : EvalEnv} {s : NotifState}
    {d : List Alert} (h : stretchInv s d) :
    stretchInv (pollStep cfg env s).1 (d ++ delivered (pollStep cfg env s).2) := by
  unfold pollStep pollThresholdPhase
  split
  · rename_i hcond
    simp only [Bool.and_eq_true, Bool.not_eq_true'] at hcond
    rcases stretchInv_notShown h hcond.2 with ⟨rfl, rfl⟩
    cases hperm : env.permissionGranted with
    | false =>
      simp [showWorkHoursNotification, hperm, pollTargetPhase, delivered, stretchInv]
    | true =>
      cases hok : env.deliverOk with
      | false =>
        simp [showWorkHoursNotification, hperm, hok, pollTargetPhase, delivered, stretchInv]
      | true =>
        cases hsw : env.swPath with
        | true =>
          simp [showWorkHoursNotification, hperm, hok, hsw, pollTargetPhase, delivered,
            stretchInv]
        | false =>
          have h2 := @pollTargetPhase_inv cfg env ⟨true, false⟩ [.thresholdAlert]
            (Or.inr (Or.inl ⟨rfl, rfl⟩))
          simpa [showWorkHoursNotification, hperm, hok, hsw, delivered_append,
            delivered] using h2
  · have h2 := @pollTargetPhase_inv cfg env _ _ h
    simpa [delivered_append, delivered] using h2

lemma reactiveStep_inv {cfg : WorkHoursConfig} {env : EvalEnv} {s : NotifState}
    {d : List Alert} (hclock : isClockedIn env.entries = true) (h : stretchInv s d) :
    stretchInv (reactiveStep cfg env s).1 (d ++ delivered (reactiveStep cfg env s).2) := by
  unfold reactiveStep
  simp only [hclock, if_true]
  split
  · rename_i hcond
    simp only [Bool.and_eq_true, Bool.not_eq_true'] at hcond
    exact showWork_inv h hcond.2
  · simpa [delivered] using h

lemma schedStep_inv {cfg : WorkHoursConfig} {k : StepKind} {env : EvalEnv} {s : NotifState}
    {d : List Alert} (hclock : isClockedIn env.entries = true) (h : stretchInv s d) :
    stretchInv (schedStep cfg k env s).1 (d ++ delivered (schedStep cfg k env s).2) := by
  cases k with
  | poll => exact pollStep_inv h
  | reactive => exact reactiveStep_inv hclock h

lemma runSched_inv (cfg : WorkHoursConfig) :
    ∀ (trace : List (StepKind × EvalEnv)) (s : NotifState) (d : List Alert),
      (∀ p ∈ trace, isClockedIn p.2.entries = true) → stretchInv s d →
      stretchInv (runSched cfg s trace).1 (d ++ delivered (runSched cfg s trace).2) := by
  intro trace
  induction trace with
  | nil =>
    intro s d _ h
    simpa [runSched, delivered] using h
  | cons p rest ih =>
    intro s d hall h
    have hp : isClockedIn p.2.entries = true := hall p (List.mem_cons_self p rest)
    have hstep := @schedStep_inv cfg p.1 p.2 _ _ hp h
    have hrest := ih (schedStep cfg p.1 p.2 s).1 (d ++ delivered (schedStep cfg p.1 p.2 s).2)
      (fun q hq => hall q (List.mem_cons_of_mem p hq)) hstep
    simpa [runSched, delivered_append, List.append_assoc] using hrest

/-- Claim C1 (amended): within a clocked-in stretch (flags start reset;
every evaluation happens while clocked in), the delivered-alert sequence
over any mix of reactive and polled evaluations is a prefix of
[threshold, target] — the target-reached alert is never delivered before
the threshold alert. When a poll finds both thresholds crossed from a
fresh state, what it sends depends on the delivery path: on the fallback
path both alerts go out back-to-back in that one evaluation, threshold
first; on the service-worker path the sent-flag is assigned only in the
delivery continuation, so that evaluation sends the threshold alert alone
and the target-reached alert goes out at the next evaluation. -/
theorem claim1_threshold_before_target :
    (∀ (cfg : WorkHoursConfig) (trace : List (StepKind × EvalEnv)),
      (∀ p ∈ trace, isClockedIn p.2.entries = true) →
      delivered (runSched cfg ⟨false, false⟩ trace).2 = [] ∨
      delivered (runSched cfg ⟨false, false⟩ trace).2 = [.thresholdAlert] ∨
      delivered (runSched cfg ⟨false, false⟩ trace).2 = [.thresholdAlert, .targetAlert]) ∧
    (∀ (cfg : WorkHoursConfig) (env : EvalEnv),
      env.swPath = false →
      0 ≤ cfg.notificationOffsetHours →
      isClockedIn env.entries = true →
      cfg.targetHours ≤ pollHoursWorked env →
      env.permissionGranted = true → env.deliverOk = true → env.deliverTargetOk = true →
      pollStep cfg env ⟨false, false⟩ =
        (⟨true, true⟩, [(.thresholdAlert, true), (.targetAlert, true)])) ∧
    (∀ (cfg : WorkHoursConfig) (env env2 : EvalEnv),
      env.swPath = true →
      0 ≤ cfg.notificationOffsetHours →
      isClockedIn env.entries = true →
      cfg.targetHours ≤ pollHoursWorked env →
      env.permissionGranted = true → env.deliverOk = true →
      isClockedIn env2.entries = true →
      cfg.targetHours ≤ pollHoursWorked env2 →
      env2.permissionGranted = true → env2.deliverTargetOk = true →
      pollStep cfg env ⟨false, false⟩ = (⟨true, false⟩, [(.thresholdAlert, true)]) ∧
      pollStep cfg env2 ⟨true, false⟩ = (⟨true, true⟩, [(.targetAlert, true)])) := by
  refine ⟨?_, ?_, ?_⟩
  · intro cfg trace hall
    have h := runSched_inv cfg trace ⟨false, false⟩ [] hall (Or.inl ⟨rfl, rfl⟩)
    simpa [stretchInv] using h.imp (fun x => x.2) (fun x => x.imp (fun y => y.2) (fun y => y.2))
  · intro cfg env hsw hoff hclock htarget hperm hok1 hok2
    have ht1 : cfg.targetHours ≤ pollHoursWorked env + cfg.notificationOffsetHours := by linarith
    simp [pollStep, pollThresholdPhase, pollTargetPhase, showWorkHoursNotification,
      showTargetReachedNotification, hsw, hclock, hperm, hok1, hok2, htarget, ht1]
  · intro cfg env env2 hsw hoff hclock htarget hperm hok1 hclock2 htarget2 hperm2 hok2
    have ht1 : cfg.targetHours ≤ pollHoursWorked env + cfg.notificationOffsetHours := by linarith
    constructor
    · simp [pollStep, pollThresholdPhase, pollTargetPhase, showWorkHoursNotification,
        hsw, hclock, hperm, hok1, htarget, ht1]
    · simp [pollStep, pollThresholdPhase, pollTargetPhase, showWorkHoursNotification,
        showTargetReachedNotification, hclock2, htarget2, hperm2, hok2]

/-- Shared concrete scheduler scenario on the fallback delivery path: one
`'in'` entry at the epoch, evaluated one hour later with a one-hour target
and zero offset, permission granted and deliveries succeeding. -/
def envA : EvalEnv := ⟨[⟨"a", 0, .tIn⟩], 3600000, false, true, true, true⟩

/-- The same scenario on the service-worker delivery path. -/
def envSW : EvalEnv := ⟨[⟨"a", 0, .tIn⟩], 3600000, true, true, true, true⟩

/-- Shared concrete configuration for the scheduler scenario. -/
def cfgA : WorkHoursConfig := ⟨1, 0⟩

/-- Claim C1 as stated is false on the service-worker delivery path: a
single poll evaluation that finds both thresholds crossed from a fresh
state, with permission granted and every delivery succeeding, sends only
the threshold alert — `notificationShown` is assigned in the continuation
after the awaits, so the same callback's target check reads it as false —
and the target-reached alert goes out only at the next evaluation. -/
theorem claim1_counterexample :
    isClockedIn envSW.entries = true ∧
    cfgA.targetHours ≤ pollHoursWorked envSW ∧
    envSW.permissionGranted = true ∧ envSW.deliverOk = true ∧ envSW.deliverTargetOk = true ∧
    pollStep cfgA envSW ⟨false, false⟩ = (⟨true, false⟩, [(.thresholdAlert, true)]) ∧
    pollStep cfgA envSW ⟨true, false⟩ = (⟨true, true⟩, [(.targetAlert, true)]) := by
  refine ⟨by decide, by with_unfolding_all decide, rfl, rfl, rfl, ?_, ?_⟩
  · with_unfolding_all decide
  · with_unfolding_all decide

theorem claim1_witness :
    (∀ p ∈ [(StepKind.poll, envA)], isClockedIn p.2.entries = true) ∧
    (delivered (runSched cfgA ⟨false, false⟩ [(.poll, envA)]).2 = [] ∨
      delivered (runSched cfgA ⟨false, false⟩ [(.poll, envA)]).2 = [.thresholdAlert] ∨
      delivered (runSched cfgA ⟨false, false⟩ [(.poll, envA)]).2 = [.thresholdAlert, .targetAlert]) ∧
    pollStep cfgA envA ⟨false, false⟩ =
      (⟨true, true⟩, [(.thresholdAlert, true), (.targetAlert, true)]) ∧
    (pollStep cfgA envSW ⟨false, false⟩ = (⟨true, false⟩, [(.thresholdAlert, true)]) ∧
      pollStep cfgA envSW ⟨true, false⟩ = (⟨true, true⟩, [(.targetAlert, true)])) := by
  refine ⟨?_, ?_, ?_, ?_⟩
  · intro p hp
    rw [List.mem_singleton] at hp
    subst hp
    decide
  · exact claim1_threshold_before_target.1 cfgA [(.poll, envA)] (by
      intro p hp
      rw [List.mem_singleton] at hp
      subst hp
      decide)
  · exact claim1_threshold_before_target.2.1 cfgA envA rfl (by decide) (by decide)
      (by with_unfolding_all decide) rfl rfl rfl
  · exact claim1_threshold_before_target.2.2 cfgA envSW envSW rfl (by decide) (by decide)
      (by with_unfolding_all decide) rfl rfl (by decide)
      (by with_unfolding_all decide) rfl rfl

/-- Claim C2 (amended): within a clocked-in stretch each alert kind is
delivered at most once; and a threshold delivery attempt that fails
leaves `notificationShown` unset on either delivery path, so the
threshold alert is attempted again on later evaluations of the same
stretch (rather than being considered already sent). -/
theorem claim2_at_most_once :
    (∀ (cfg : WorkHoursConfig) (trace : List (StepKind × EvalEnv)),
      (∀ p ∈ trace, isClockedIn p.2.entries = true) →
      (delivered (runSched cfg ⟨false, false⟩ trace).2).count Alert.thresholdAlert ≤ 1 ∧
      (delivered (runSched cfg ⟨false, false⟩ trace).2).count Alert.targetAlert ≤ 1) ∧
    (∀ (sw : Bool) (s : NotifState),
      showWorkHoursNotification sw true false s = ⟨s, s, [(.thresholdAlert, false)]⟩) := by
  constructor
  · intro cfg trace hall
    have h := runSched_inv cfg trace ⟨false, false⟩ [] hall (Or.inl ⟨rfl, rfl⟩)
    rcases h with h | h | h
    · rw [List.nil_append] at h
      rw [h.2]
      exact ⟨by decide, by decide⟩
    · rw [List.nil_append] at h
      rw [h.2]
      exact ⟨by decide, by decide⟩
    · rw [List.nil_append] at h
      rcases h.2 with h2 | h2 <;> rw [h2] <;> exact ⟨by decide, by decide⟩
  · intro sw s
    cases sw <;> rfl

theorem claim2_witness :
    (∀ p ∈ [(StepKind.poll, envA)], isClockedIn p.2.entries = true) ∧
    ((delivered (runSched cfgA ⟨false, false⟩ [(.poll, envA)]).2).count Alert.thresholdAlert ≤ 1 ∧
      (delivered (runSched cfgA ⟨false, false⟩ [(.poll, envA)]).2).count Alert.targetAlert ≤ 1) ∧
    showWorkHoursNotification true true false ⟨false, false⟩ =
      ⟨⟨false, false⟩, ⟨false, false⟩, [(.thresholdAlert, false)]⟩ := by
  refine ⟨?_, ?_, ?_⟩
  · intro p hp
    rw [List.mem_singleton] at hp
    subst hp
    decide
  · exact claim2_at_most_once.1 cfgA [(.poll, envA)] (by
      intro p hp
      rw [List.mem_singleton] at hp
      subst hp
      decide)
  · exact claim2_at_most_once.2 true ⟨false, false⟩

/-- Scheduler environment (service-worker path) whose threshold delivery
throws. -/
def envBfail : EvalEnv := ⟨[⟨"a", 0, .tIn⟩], 27000000, true, true, false, true⟩

/-- Scheduler environment (service-worker path) whose deliveries
succeed. -/
def envBok : EvalEnv := ⟨[⟨"a", 0, .tIn⟩], 27000000, true, true, true, true⟩

/-- Configuration for the claim C2 counterexample: eight-hour target with a
one-hour offset; 7.5 hours worked sits past the threshold and short of the
target. -/
def cfgB : WorkHoursConfig := ⟨8, 1⟩

/-- Claim C2 as stated is false in its failed-delivery part: in a single
clocked-in stretch, a poll whose threshold delivery throws leaves
`notificationShown` unset, and the next poll attempts — and this time
delivers — the same threshold alert; the recorded attempt list shows the
alert sent on a later evaluation after the failed attempt. -/
theorem claim2_counterexample :
    isClockedIn envBfail.entries = true ∧
    isClockedIn envBok.entries = true ∧
    runSched cfgB ⟨false, false⟩ [(.poll, envBfail), (.poll, envBok)] =
      (⟨true, false⟩, [(.thresholdAlert, false), (.thresholdAlert, true)]) := by
  refine ⟨by decide, by decide, ?_⟩
  with_unfolding_all decide

end Timekeep
